import Mathlib

/-!
Verification of the BoatUsageTimes tide-window core.

The embedding models the two source files:
  * `main.py`: `interpolate_tide_height` and `find_tide_windows` (plus the
    duration-string computation attached to each emitted window);
  * `streamlit_app.py`: the verbatim copy of `interpolate_tide_height` and the
    inline window scanner accumulating `daily_windows`, and the best-day
    reducer over the resulting mapping.

Timestamps are naive local date-times at second resolution; we model them as
natural numbers counting seconds from a reference local midnight (day 0).
Calendar dates become `t / 86400`, the time of day `t % 86400`, and the
`"%Y-%m-%d"` string keys of the Python dicts become day numbers (the string
representation is a bijective renaming of the date).  Tide heights and the
threshold are Python floats computed with `math.cos`/`math.sin`; we model them
as real numbers, so the threshold test is only classically decidable and the
scanner definitions are `noncomputable` (everything that the source computes
with integer arithmetic stays executable).
-/

namespace BoatUsage

/-- Tide extremum kind: the `'high'` / `'low'` discriminator of `t['type']`. -/
inductive TideKind where
  | high : TideKind
  | low : TideKind
deriving DecidableEq, Repr

/-- One observed tide extremum: `dateTime` (seconds since day-0 midnight),
`height` (meters) and `type`, as parsed by both source files. -/
structure TidePoint where
  ts : Nat
  height : ℝ
  kind : TideKind

/-- Seconds elapsed since the local midnight of `t`'s own day
(`t.time()` expressed in seconds). -/
def secOfDay (t : Nat) : Nat := t % 86400

/-- Calendar date of instant `t`, as a day number (`t.date()` /
`t.strftime("%Y-%m-%d")`). -/
def dateOf (t : Nat) : Nat := t / 86400

/-- `t.hour` of the instant. -/
def hourOf (t : Nat) : Nat := secOfDay t / 3600

/-- `t.minute` of the instant. -/
def minuteOf (t : Nat) : Nat := secOfDay t % 3600 / 60

/-- `datetime.combine(d, datetime.min.time().replace(hour=17, minute=30))`:
17:30 on day `d`, in seconds. -/
def combine1730 (d : Nat) : Nat := d * 86400 + 63000

/-- The daylight gate of `main.py` line 112:
`6 <= current_time.hour < 17 or (current_time.hour == 17 and current_time.minute <= 30)`. -/
def is_daylight (t : Nat) : Bool :=
  (6 ≤ hourOf t && hourOf t < 17) || (hourOf t == 17 && minuteOf t ≤ 30)

/-- The daylight gate of `streamlit_app.py` line 313, a verbatim copy of the
one in `main.py`. -/
def is_daylight_app (t : Nat) : Bool :=
  (6 ≤ hourOf t && hourOf t < 17) || (hourOf t == 17 && minuteOf t ≤ 30)

theorem is_daylight_app_eq (t : Nat) : is_daylight_app t = is_daylight t := rfl

/-- `interpolate_tide_height` from `main.py` lines 30-73.  `proportion` is the
elapsed fraction of the span (real division; Python divides the two
`total_seconds()` floats).  The two kind-dispatch chains of the source (one
computing `phase_normalized`, one computing the returned height) are fused
branch-by-branch: each `match` arm carries exactly the `phase_normalized`
and the return expression that the source computes for that kind pair. -/
noncomputable def interpolate_tide_height (time : Nat) (prev_tide next_tide : TidePoint) : ℝ :=
  let proportion : ℝ :=
    ((time : ℝ) - (prev_tide.ts : ℝ)) / ((next_tide.ts : ℝ) - (prev_tide.ts : ℝ))
  match prev_tide.kind, next_tide.kind with
  | TideKind.high, TideKind.low =>
      let phase := Real.cos (proportion * Real.pi)
      let phase_normalized := (phase + 1) / 2
      prev_tide.height - (prev_tide.height - next_tide.height) * (1 - phase_normalized)
  | TideKind.low, TideKind.high =>
      let phase := -Real.cos (proportion * Real.pi)
      let phase_normalized := (phase + 1) / 2
      prev_tide.height + (next_tide.height - prev_tide.height) * phase_normalized
  | _, _ =>
      let phase := Real.sin (proportion * Real.pi / 2)
      let phase_normalized := phase
      prev_tide.height + (next_tide.height - prev_tide.height) * phase_normalized

/-- `interpolate_tide_height` from `streamlit_app.py` lines 30-73, a verbatim
copy of the one in `main.py`. -/
noncomputable def interpolate_tide_height_app (time : Nat) (prev_tide next_tide : TidePoint) : ℝ :=
  let proportion : ℝ :=
    ((time : ℝ) - (prev_tide.ts : ℝ)) / ((next_tide.ts : ℝ) - (prev_tide.ts : ℝ))
  match prev_tide.kind, next_tide.kind with
  | TideKind.high, TideKind.low =>
      let phase := Real.cos (proportion * Real.pi)
      let phase_normalized := (phase + 1) / 2
      prev_tide.height - (prev_tide.height - next_tide.height) * (1 - phase_normalized)
  | TideKind.low, TideKind.high =>
      let phase := -Real.cos (proportion * Real.pi)
      let phase_normalized := (phase + 1) / 2
      prev_tide.height + (next_tide.height - prev_tide.height) * phase_normalized
  | _, _ =>
      let phase := Real.sin (proportion * Real.pi / 2)
      let phase_normalized := phase
      prev_tide.height + (next_tide.height - prev_tide.height) * phase_normalized

theorem interpolate_tide_height_app_eq (time : Nat) (p n : TidePoint) :
    interpolate_tide_height_app time p n = interpolate_tide_height time p n := rfl

/-- The hour/minute daylight gate, characterized on the second-of-day:
because seconds are truncated away, the gate accepts exactly the instants
whose time of day lies in `[06:00:00, 17:30:59]`, i.e. `[21600, 63060)`
seconds. -/
theorem is_daylight_iff (t : Nat) :
    is_daylight t = true ↔ 21600 ≤ secOfDay t ∧ secOfDay t < 63060 := by
  simp only [is_daylight, hourOf, minuteOf, secOfDay, Bool.or_eq_true, Bool.and_eq_true,
    decide_eq_true_eq, beq_iff_eq]
  omega

theorem secOfDay_lt_of_daylight {t : Nat} (h : is_daylight t = true) : secOfDay t < 63060 :=
  ((is_daylight_iff t).1 h).2

/-- An instant at most 900 seconds after a daylight instant still lies on the
same calendar day (daylight ends at second 63059 of the day, and
`63059 + 900 < 86400`). -/
theorem dateOf_step_eq {t t' : Nat} (hd : is_daylight t = true)
    (h1 : t ≤ t') (h2 : t' ≤ t + 900) : dateOf t' = dateOf t := by
  have h3 := secOfDay_lt_of_daylight hd
  simp only [secOfDay] at h3
  simp only [dateOf]
  omega

theorem dateOf_combine1730 (d : Nat) : dateOf (combine1730 d) = d := by
  simp only [dateOf, combine1730]
  omega

theorem secOfDay_combine1730 (d : Nat) : secOfDay (combine1730 d) = 63000 := by
  simp only [secOfDay, combine1730]
  omega

/-- Helper for the raised-cosine claim: both opposite-kind branches of
`interpolate_tide_height` reduce to the single Hann-ease formula. -/
theorem interpolate_opposite_eq (p n : TidePoint) (t : Nat) (h : p.kind ≠ n.kind) :
    interpolate_tide_height t p n =
      p.height + (n.height - p.height) *
        (1 - Real.cos (Real.pi *
          (((t : ℝ) - (p.ts : ℝ)) / ((n.ts : ℝ) - (p.ts : ℝ))))) / 2 := by
  unfold interpolate_tide_height
  rcases hp : p.kind <;> rcases hn : n.kind
  · exact absurd (by rw [hp, hn]) h
  · simp only
    rw [mul_comm Real.pi]
    ring
  · simp only
    rw [mul_comm Real.pi]
    ring
  · exact absurd (by rw [hp, hn]) h

/-- Helper for endpoint exactness at the left endpoint (in every branch,
`proportion = 0` there, even for a degenerate span, since `0 / x = 0`). -/
theorem interpolate_left_endpoint (p n : TidePoint) :
    interpolate_tide_height p.ts p n = p.height := by
  unfold interpolate_tide_height
  rcases p.kind <;> rcases n.kind <;>
    simp [Real.cos_zero, Real.sin_zero]

/-- Helper for endpoint exactness at the right endpoint: with a positive span
the proportion is exactly 1, and `cos π = -1`, `sin (π/2) = 1` make every
branch return `next.height` exactly. -/
theorem interpolate_right_endpoint (p n : TidePoint) (h : p.ts < n.ts) :
    interpolate_tide_height n.ts p n = n.height := by
  have hne : (n.ts : ℝ) - (p.ts : ℝ) ≠ 0 := by
    have : (p.ts : ℝ) < (n.ts : ℝ) := by exact_mod_cast h
    linarith
  unfold interpolate_tide_height
  rcases p.kind <;> rcases n.kind <;>
    simp only [div_self hne, one_mul, Real.cos_pi, Real.sin_pi_div_two] <;> ring

/-- The `duration_str` computed by `main.py` whenever it emits a window:
`f"{int(dur // 3600):02d}:{int((dur % 3600) // 60):02d}"`, modelled as the
(hours, minutes) pair behind the zero-padded rendering.  Every emission site
of the source computes it from `end - start`. -/
def durStr (s e : Nat) : Nat × Nat := ((e - s) / 3600, (e - s) % 3600 / 60)

/-- A window tuple `(current_window_start, end, duration_str)` as appended by
`find_tide_windows` in `main.py`. -/
structure Itv where
  start : Nat
  endTime : Nat
  duration : Nat × Nat
deriving DecidableEq, Repr

/-- The dict-of-lists accumulation used identically at every emission site:
`if key not in windows: windows[key] = []` followed by
`windows[key].append(v)`.  Python dicts preserve insertion order, so the
mapping is an association list with new keys appended at the end. -/
def addWindow {α : Type} (m : List (Nat × List α)) (k : Nat) (v : α) : List (Nat × List α) :=
  if m.any (fun e => e.1 == k) then
    m.map (fun e => if e.1 == k then (e.1, e.2 ++ [v]) else e)
  else
    m ++ [(k, [v])]

/-- The loop state of `find_tide_windows`: `current_window_start`,
`previous_date`, and the `windows` dict being accumulated.  `dayFlushed` is
ghost instrumentation recording whether the day-boundary flush branch
(lines 98-107) ever executed; it influences nothing else. -/
structure ScanState where
  current_window_start : Option Nat
  previous_date : Option Nat
  windows : List (Nat × List Itv)
  dayFlushed : Bool

/-- The day-boundary flush at the top of the tick loop (`main.py` lines
98-107): if the date changed while a window is open, close it at 17:30 of the
window's own start date, keyed by `previous_date`, and clear the window. -/
def dayFlushStep (st : ScanState) (t : Nat) : ScanState :=
  match st.previous_date, st.current_window_start with
  | some pd, some s =>
      if pd ≠ dateOf t then
        { current_window_start := none
          previous_date := st.previous_date
          windows := addWindow st.windows pd ⟨s, combine1730 (dateOf s),
            durStr s (combine1730 (dateOf s))⟩
          dayFlushed := true }
      else st
  | _, _ => st

/-- The body of the 15-minute tick loop of `find_tide_windows` (`main.py`
lines 94-143) at one tick `t`: day-boundary flush, `previous_date = date`,
then the daylight-gated threshold state machine, then the daylight-boundary
force-close. -/
noncomputable def stepTick (threshold : ℝ) (prev_tide next_tide : TidePoint)
    (st : ScanState) (t : Nat) : ScanState :=
  let st1 := dayFlushStep st t
  let st2 := { st1 with previous_date := some (dateOf t) }
  if is_daylight t then
    if threshold ≤ interpolate_tide_height t prev_tide next_tide then
      match st2.current_window_start with
      | none => { st2 with current_window_start := some t }
      | some _ => st2
    else
      match st2.current_window_start with
      | some s =>
          { st2 with current_window_start := none
                     windows := addWindow st2.windows (dateOf t) ⟨s, t, durStr s t⟩ }
      | none => st2
  else
    match st2.current_window_start with
    | some s =>
        { st2 with current_window_start := none
                   windows :=
                     if s ≤ combine1730 (dateOf t) then
                       addWindow st2.windows (dateOf t)
                         ⟨s, combine1730 (dateOf t), durStr s (combine1730 (dateOf t))⟩
                     else st2.windows }
    | none => st2

/-- The ticks visited by `while current_time <= next_tide_time` starting at
`current_time = prev_tide_time` and advancing by 15 minutes: the instants
`a + 900*k` for `0 ≤ k ≤ (b - a) / 900` (none at all when `b < a`, since the
loop guard fails immediately). -/
def ticksOfPair (a b : Nat) : List Nat :=
  if b < a then [] else (List.range ((b - a) / 900 + 1)).map (fun k => a + 900 * k)

/-- The consecutive pairs `(tide_points[i], tide_points[i+1])` scanned by the
`for i in range(len(tide_points) - 1)` loop. -/
def pairsOf (pts : List TidePoint) : List (TidePoint × TidePoint) := pts.zip pts.tail

/-- `tide_points.sort()`: Python's stable sort of `(datetime, dict)` tuples,
which orders by timestamp (the second components are never compared when the
timestamps are distinct, the data-source contract). -/
def sortTides (tides : List TidePoint) : List TidePoint :=
  tides.insertionSort (fun a b => a.ts ≤ b.ts)

/-- The scanner state after the full double loop of `find_tide_windows`
(before the trailing end-of-data flush). -/
noncomputable def scanStateOf (tides : List TidePoint) (threshold : ℝ) : ScanState :=
  (pairsOf (sortTides tides)).foldl
    (fun st pr => (ticksOfPair pr.1.ts pr.2.ts).foldl (stepTick threshold pr.1 pr.2) st)
    ⟨none, none, [], false⟩

/-- `find_tide_windows` from `main.py` lines 75-158: the tick-loop scan
followed by the end-of-data flush (close any still-open window at 17:30 of
its own start date, keyed by `previous_date`, guarded by
`current_window_start <= end_time`). -/
noncomputable def find_tide_windows (tides : List TidePoint) (threshold : ℝ) :
    List (Nat × List Itv) :=
  let st := scanStateOf tides threshold
  match st.current_window_start, st.previous_date with
  | some s, some pd =>
      if s ≤ combine1730 (dateOf s) then
        addWindow st.windows pd ⟨s, combine1730 (dateOf s), durStr s (combine1730 (dateOf s))⟩
      else st.windows
  | _, _ => st.windows

/-- The full sequence of tick instants evaluated by the scan, pair by pair
(exactly the instants the `stepTick` folds of `scanStateOf` run through). -/
def scanTickList (tides : List TidePoint) : List Nat :=
  ((pairsOf (sortTides tides)).map (fun pr => ticksOfPair pr.1.ts pr.2.ts)).flatten

/-! Section: The inline scanner of `streamlit_app.py` (lines 289-346)

It is a line-for-line duplicate of `find_tide_windows` except that the tuples
appended to `daily_windows` are `(start, end)` pairs without the duration
string. -/

/-- Loop state of the `streamlit_app.py` scanner; `dayFlushed` is the same
ghost instrumentation as in `ScanState`. -/
structure ScanStateApp where
  current_window_start : Option Nat
  previous_date : Option Nat
  windows : List (Nat × List (Nat × Nat))
  dayFlushed : Bool

/-- Day-boundary flush of `streamlit_app.py` lines 303-308. -/
def dayFlushStepApp (st : ScanStateApp) (t : Nat) : ScanStateApp :=
  match st.previous_date, st.current_window_start with
  | some pd, some s =>
      if pd ≠ dateOf t then
        { current_window_start := none
          previous_date := st.previous_date
          windows := addWindow st.windows pd (s, combine1730 (dateOf s))
          dayFlushed := true }
      else st
  | _, _ => st

/-- Tick-loop body of the `streamlit_app.py` scanner (lines 299-338). -/
noncomputable def stepTickApp (threshold : ℝ) (prev_tide next_tide : TidePoint)
    (st : ScanStateApp) (t : Nat) : ScanStateApp :=
  let st1 := dayFlushStepApp st t
  let st2 := { st1 with previous_date := some (dateOf t) }
  if is_daylight_app t then
    if threshold ≤ interpolate_tide_height_app t prev_tide next_tide then
      match st2.current_window_start with
      | none => { st2 with current_window_start := some t }
      | some _ => st2
    else
      match st2.current_window_start with
      | some s =>
          { st2 with current_window_start := none
                     windows := addWindow st2.windows (dateOf t) (s, t) }
      | none => st2
  else
    match st2.current_window_start with
    | some s =>
        { st2 with current_window_start := none
                   windows :=
                     if s ≤ combine1730 (dateOf t) then
                       addWindow st2.windows (dateOf t) (s, combine1730 (dateOf t))
                     else st2.windows }
    | none => st2

/-- State of the `streamlit_app.py` scanner after its double loop. -/
noncomputable def scanStateOfApp (tides : List TidePoint) (threshold : ℝ) : ScanStateApp :=
  (pairsOf (sortTides tides)).foldl
    (fun st pr => (ticksOfPair pr.1.ts pr.2.ts).foldl (stepTickApp threshold pr.1 pr.2) st)
    ⟨none, none, [], false⟩

/-- The `daily_windows` mapping computed inline in `streamlit_app.py`
`main()` (lines 289-346), including the trailing end-of-data flush. -/
noncomputable def daily_windows (tides : List TidePoint) (threshold : ℝ) :
    List (Nat × List (Nat × Nat)) :=
  let st := scanStateOfApp tides threshold
  match st.current_window_start, st.previous_date with
  | some s, some pd =>
      if s ≤ combine1730 (dateOf s) then
        addWindow st.windows pd (s, combine1730 (dateOf s))
      else st.windows
  | _, _ => st.windows

/-- Per-day total boatable minutes:
`sum((end - start).total_seconds() / 60 for start, end in windows)`
(`streamlit_app.py` line 411), with exact rational arithmetic in place of
floats. -/
def day_minutes (ws : List (Nat × Nat)) : ℚ :=
  (ws.map (fun w => ((w.2 : ℚ) - (w.1 : ℚ)) / 60)).sum

/-- The best-day reducer of `streamlit_app.py` lines 407-414:
`best_day = None; best_hours = 0`, then for each day in iteration order,
`if day_minutes > best_hours * 60: best_hours = day_minutes / 60;
best_day = date_str`.  Returns the final `(best_day, best_hours)`. -/
def best_day (dw : List (Nat × List (Nat × Nat))) : Option Nat × ℚ :=
  dw.foldl
    (fun acc e => if day_minutes e.2 > acc.2 * 60 then (some e.1, day_minutes e.2 / 60) else acc)
    (none, 0)

/-! Section: Claim theorems: interpolation (C5, C7) and small-input behaviour (C9) -/

/-- C5: for adjacent extrema of differing kind, both opposite-kind branches of
`interpolate_tide_height` (the cosine phase for a falling tide and the
negated-cosine phase for a rising tide, with their different final
arithmetic) equal the single raised-cosine formula
`prev.height + (next.height - prev.height) * (1 - cos (π * p)) / 2`, where
`p` is the elapsed proportion of the span. -/
theorem claim_C5_raised_cosine (p n : TidePoint) (t : Nat) (h : p.kind ≠ n.kind) :
    interpolate_tide_height t p n =
      p.height + (n.height - p.height) *
        (1 - Real.cos (Real.pi *
          (((t : ℝ) - (p.ts : ℝ)) / ((n.ts : ℝ) - (p.ts : ℝ))))) / 2 :=
  interpolate_opposite_eq p n t h

theorem claim_C5_raised_cosine_witness :
    (⟨0, 0, TideKind.low⟩ : TidePoint).kind ≠ (⟨3600, 2, TideKind.high⟩ : TidePoint).kind ∧
      interpolate_tide_height 1800 ⟨0, 0, TideKind.low⟩ ⟨3600, 2, TideKind.high⟩ =
        (0 : ℝ) + ((2 : ℝ) - 0) *
          (1 - Real.cos (Real.pi * ((((1800 : Nat) : ℝ) - ((0 : Nat) : ℝ)) /
            ((((3600 : Nat) : ℝ)) - ((0 : Nat) : ℝ))))) / 2 :=
  ⟨by decide, claim_C5_raised_cosine ⟨0, 0, TideKind.low⟩ ⟨3600, 2, TideKind.high⟩ 1800 (by decide)⟩

/-- C7: evaluating the interpolation at the two endpoints of any adjacent
pair with `prev.ts < next.ts` returns the observed heights exactly, in every
branch (raised-cosine for opposite kinds, sine-ease for equal kinds). -/
theorem claim_C7_endpoint_exactness (p n : TidePoint) (h : p.ts < n.ts) :
    interpolate_tide_height p.ts p n = p.height ∧
      interpolate_tide_height n.ts p n = n.height :=
  ⟨interpolate_left_endpoint p n, interpolate_right_endpoint p n h⟩

theorem claim_C7_endpoint_exactness_witness :
    (⟨0, 1, TideKind.high⟩ : TidePoint).ts < (⟨3600, 0, TideKind.low⟩ : TidePoint).ts ∧
      (interpolate_tide_height 0 ⟨0, 1, TideKind.high⟩ ⟨3600, 0, TideKind.low⟩ = (1 : ℝ) ∧
        interpolate_tide_height 3600 ⟨0, 1, TideKind.high⟩ ⟨3600, 0, TideKind.low⟩ = (0 : ℝ)) :=
  ⟨by decide, claim_C7_endpoint_exactness ⟨0, 1, TideKind.high⟩ ⟨3600, 0, TideKind.low⟩ (by decide)⟩

/-- C9: an input with fewer than two tide points produces no consecutive
pairs, so the scan returns the empty mapping (and, being a total function of
its input, raises no error). -/
theorem claim_C9_small_input (tides : List TidePoint) (threshold : ℝ)
    (h : tides.length < 2) : find_tide_windows tides threshold = [] := by
  match tides with
  | [] => rfl
  | [p] => rfl
  | p :: q :: rest => exact absurd h (by simp)

theorem claim_C9_small_input_witness :
    ([] : List TidePoint).length < 2 ∧ find_tide_windows [] 0 = [] :=
  ⟨by decide, claim_C9_small_input [] 0 (by decide)⟩

/-! Section: Claim C3: the daylight gate -/

/-- A two-point input whose tide timestamps carry 45 seconds, so that the
scan's tick sequence contains the instant 17:30:45. -/
def secondsTides : List TidePoint :=
  [⟨62145, 0, TideKind.low⟩, ⟨64800, 2, TideKind.high⟩]

/-- C3 counterexample: scanning `secondsTides` evaluates the tick 17:30:45
(second 63045 of day 0), the code's daylight gate accepts it (`hour == 17 and
minute <= 30` ignores seconds), yet its time of day is strictly after 17:30
(second 63000) — so the gate is not the closed range `[06:00, 17:30]`. -/
theorem claim_C3_daylight_counterexample :
    63045 ∈ scanTickList secondsTides ∧ is_daylight 63045 = true ∧
      ¬ (21600 ≤ secOfDay 63045 ∧ secOfDay 63045 ≤ 63000) := by
  refine ⟨by decide, by decide, ?_⟩
  decide

/-- C3 amended: since the gate truncates to whole minutes, it is true exactly
on the half-open range `[06:00:00, 17:31:00)` of the time of day — that is,
`[06:00, 17:30]` extended to include every second 17:30:00-17:30:59 — for
every instant (hence for every tick evaluated during any scan). -/
theorem claim_C3_daylight_amended (t : Nat) :
    is_daylight t = true ↔ 21600 ≤ secOfDay t ∧ secOfDay t < 63060 :=
  is_daylight_iff t

/-! Section: The scan invariant

A window can only be open while the previous processed tick was a daylight
tick of the window's own start date, and consecutive processed ticks are at
most 15 minutes apart; this kills the day-boundary flush branch and yields
the per-interval well-formedness facts. -/

/-- Well-formedness of the accumulated windows mapping: every emitted tuple
has `start ≤ end` on the same calendar date. -/
def WinOK (w : List (Nat × List Itv)) : Prop :=
  ∀ p ∈ w, ∀ itv ∈ p.2, itv.start ≤ itv.endTime ∧ dateOf itv.start = dateOf itv.endTime

theorem winOK_nil : WinOK [] := by intro p hp; cases hp

theorem winOK_addWindow {w : List (Nat × List Itv)} {k : Nat} {itv : Itv}
    (hw : WinOK w) (h1 : itv.start ≤ itv.endTime)
    (h2 : dateOf itv.start = dateOf itv.endTime) : WinOK (addWindow w k itv) := by
  intro p hp i hi
  unfold addWindow at hp
  by_cases hany : w.any (fun e => e.1 == k)
  · rw [if_pos hany] at hp
    obtain ⟨q, hq, hfq⟩ := List.mem_map.1 hp
    by_cases hqk : q.1 == k
    · rw [if_pos hqk] at hfq
      subst hfq
      rcases List.mem_append.1 hi with hiq | hione
      · exact hw q hq i hiq
      · rcases List.mem_singleton.1 hione with rfl
        exact ⟨h1, h2⟩
    · rw [if_neg hqk] at hfq
      subst hfq
      exact hw q hq i hi
  · rw [if_neg hany] at hp
    rcases List.mem_append.1 hp with hpw | hpnew
    · exact hw p hpw i hi
    · rcases List.mem_singleton.1 hpnew with rfl
      rcases List.mem_singleton.1 hi with rfl
      exact ⟨h1, h2⟩

/-- Invariant of the scanner state relative to the last processed tick (or
`none` before any tick has been processed). -/
def TickInv (st : ScanState) : Option Nat → Prop
  | none =>
      st.dayFlushed = false ∧ WinOK st.windows ∧
        st.current_window_start = none ∧ st.previous_date = none
  | some t =>
      st.dayFlushed = false ∧ WinOK st.windows ∧
        st.previous_date = some (dateOf t) ∧
        ∀ s, st.current_window_start = some s →
          s ≤ t ∧ dateOf s = dateOf t ∧ is_daylight t = true

theorem dayFlushStep_of_none {st : ScanState} (t : Nat)
    (h : st.current_window_start = none) : dayFlushStep st t = st := by
  obtain ⟨cw, pd, w, fl⟩ := st
  cases h
  cases pd <;> rfl

theorem dayFlushStep_of_pd_none {st : ScanState} (t : Nat)
    (h : st.previous_date = none) : dayFlushStep st t = st := by
  obtain ⟨cw, pd, w, fl⟩ := st
  cases h
  cases cw <;> rfl

theorem dayFlushStep_of_same_date {st : ScanState} {t : Nat}
    (h : st.previous_date = some (dateOf t)) : dayFlushStep st t = st := by
  obtain ⟨cw, pd, w, fl⟩ := st
  cases h
  cases cw with
  | none => rfl
  | some s => simp [dayFlushStep]

/-- Processing one more tick `t'`, at most 15 minutes after the previous tick
`t`, preserves the invariant. -/
theorem stepTick_inv_some (threshold : ℝ) (pr nx : TidePoint) {st : ScanState} {t t' : Nat}
    (h : TickInv st (some t)) (h1 : t ≤ t') (h2 : t' ≤ t + 900) :
    TickInv (stepTick threshold pr nx st t') (some t') := by
  obtain ⟨hf, hw, hpd, hop⟩ := h
  have hflush : dayFlushStep st t' = st := by
    cases hcw : st.current_window_start with
    | none => exact dayFlushStep_of_none t' hcw
    | some s =>
        obtain ⟨-, -, hdl⟩ := hop s hcw
        have hdd : dateOf t' = dateOf t := dateOf_step_eq hdl h1 h2
        exact dayFlushStep_of_same_date (by rw [hpd, hdd])
  obtain ⟨cw, pd, w, fl⟩ := st
  simp only at hf hw hpd hop
  unfold stepTick
  rw [hflush]
  dsimp only
  by_cases hdl' : is_daylight t'
  · rw [if_pos hdl']
    by_cases hthr : threshold ≤ interpolate_tide_height t' pr nx
    · rw [if_pos hthr]
      cases cw with
      | none =>
          exact ⟨hf, hw, rfl, by
            intro s hs
            cases hs
            exact ⟨le_refl _, rfl, hdl'⟩⟩
      | some s =>
          obtain ⟨hst, hsd, hdl⟩ := hop s rfl
          exact ⟨hf, hw, rfl, by
            intro s' hs'
            cases hs'
            exact ⟨le_trans hst h1, by rw [hsd, dateOf_step_eq hdl h1 h2], hdl'⟩⟩
    · rw [if_neg hthr]
      cases cw with
      | none => exact ⟨hf, hw, rfl, by intro s hs; cases hs⟩
      | some s =>
          obtain ⟨hst, hsd, hdl⟩ := hop s rfl
          refine ⟨hf, ?_, rfl, by intro s' hs'; cases hs'⟩
          exact winOK_addWindow hw (le_trans hst h1)
            (by rw [hsd, dateOf_step_eq hdl h1 h2])
  · rw [if_neg hdl']
    cases cw with
    | none => exact ⟨hf, hw, rfl, by intro s hs; cases hs⟩
    | some s =>
        obtain ⟨hst, hsd, hdl⟩ := hop s rfl
        refine ⟨hf, ?_, rfl, by intro s' hs'; cases hs'⟩
        show WinOK (if s ≤ combine1730 (dateOf t') then
            addWindow w (dateOf t')
              ⟨s, combine1730 (dateOf t'), durStr s (combine1730 (dateOf t'))⟩
          else w)
        by_cases hguard : s ≤ combine1730 (dateOf t')
        · rw [if_pos hguard]
          exact winOK_addWindow hw hguard
            (by rw [dateOf_combine1730, hsd, dateOf_step_eq hdl h1 h2])
        · rw [if_neg hguard]
          exact hw

/-- Processing the very first tick establishes the invariant. -/
theorem stepTick_inv_none (threshold : ℝ) (pr nx : TidePoint) {st : ScanState} (t' : Nat)
    (h : TickInv st none) : TickInv (stepTick threshold pr nx st t') (some t') := by
  obtain ⟨hf, hw, hcw, hpd⟩ := h
  have hflush : dayFlushStep st t' = st := dayFlushStep_of_none t' hcw
  obtain ⟨cw, pd, w, fl⟩ := st
  simp only at hf hw hcw hpd
  cases hcw
  unfold stepTick
  rw [hflush]
  by_cases hdl' : is_daylight t'
  · rw [if_pos hdl']
    by_cases hthr : threshold ≤ interpolate_tide_height t' pr nx
    · rw [if_pos hthr]
      exact ⟨hf, hw, rfl, by
        intro s hs
        cases hs
        exact ⟨le_refl _, rfl, hdl'⟩⟩
    · rw [if_neg hthr]
      exact ⟨hf, hw, rfl, by intro s hs; cases hs⟩
  · rw [if_neg hdl']
    exact ⟨hf, hw, rfl, by intro s hs; cases hs⟩

/-- The arithmetic tick sequence `a, a+900, ..., a+900*(n-1)` (n ticks). -/
def ticksArr (a n : Nat) : List Nat := (List.range n).map (fun k => a + 900 * k)

theorem ticksOfPair_eq_arr {a b : Nat} (h : ¬ b < a) :
    ticksOfPair a b = ticksArr a ((b - a) / 900 + 1) := by
  unfold ticksOfPair ticksArr
  rw [if_neg h]

theorem ticksArr_zero (a : Nat) : ticksArr a 0 = [] := rfl

theorem ticksArr_succ_cons (a n : Nat) : ticksArr a (n + 1) = a :: ticksArr (a + 900) n := by
  unfold ticksArr
  rw [List.range_succ_eq_map, List.map_cons, List.map_map]
  congr 1
  apply List.map_congr_left
  intro k _
  simp only [Function.comp_apply, Nat.succ_eq_add_one]
  omega

theorem ticksArr_append (a m n : Nat) :
    ticksArr a (m + n) = ticksArr a m ++ ticksArr (a + 900 * m) n := by
  unfold ticksArr
  rw [List.range_add, List.map_append, List.map_map]
  congr 1
  apply List.map_congr_left
  intro k _
  simp only [Function.comp_apply]
  omega

theorem mem_ticksArr {a n t : Nat} :
    t ∈ ticksArr a n ↔ ∃ k, k < n ∧ t = a + 900 * k := by
  unfold ticksArr
  simp only [List.mem_map, List.mem_range]
  constructor
  · rintro ⟨k, hk, rfl⟩
    exact ⟨k, hk, rfl⟩
  · rintro ⟨k, hk, rfl⟩
    exact ⟨k, hk, rfl⟩

/-- Folding the tick loop over an arithmetic tick block preserves the
invariant, landing on the block's last tick. -/
theorem ticksFold_inv (threshold : ℝ) (pr nx : TidePoint) :
    ∀ (n a : Nat) (st : ScanState) (t : Nat),
      TickInv st (some t) → t ≤ a → a ≤ t + 900 →
      TickInv ((ticksArr a (n + 1)).foldl (stepTick threshold pr nx) st)
        (some (a + 900 * n)) := by
  intro n
  induction n with
  | zero =>
      intro a st t h h1 h2
      rw [ticksArr_succ_cons, ticksArr_zero]
      simpa using stepTick_inv_some threshold pr nx h h1 h2
  | succ n ih =>
      intro a st t h h1 h2
      rw [ticksArr_succ_cons, List.foldl_cons]
      have hstep := stepTick_inv_some threshold pr nx h h1 h2
      have := ih (a + 900) (stepTick threshold pr nx st a) a hstep
        (Nat.le_add_right a 900) (le_refl _)
      have harith : a + 900 + 900 * n = a + 900 * (n + 1) := by ring
      rwa [harith] at this

/-- Same as `ticksFold_inv` with no previously processed tick. -/
theorem ticksFold_inv_none (threshold : ℝ) (pr nx : TidePoint) (n a : Nat)
    {st : ScanState} (h : TickInv st none) :
    TickInv ((ticksArr a (n + 1)).foldl (stepTick threshold pr nx) st)
      (some (a + 900 * n)) := by
  cases n with
  | zero =>
      rw [ticksArr_succ_cons, ticksArr_zero]
      simpa using stepTick_inv_none threshold pr nx a h
  | succ n =>
      rw [ticksArr_succ_cons, List.foldl_cons]
      have hstep := stepTick_inv_none threshold pr nx a h
      have := ticksFold_inv threshold pr nx n (a + 900) (stepTick threshold pr nx st a) a hstep
        (Nat.le_add_right a 900) (le_refl _)
      have harith : a + 900 + 900 * n = a + 900 * (n + 1) := by ring
      rwa [harith] at this

/-- Folding the scan over the remaining consecutive pairs preserves the
invariant, provided the points are sorted and the first upcoming timestamp is
within 15 minutes after the last processed tick. -/
theorem pairsFold_inv (threshold : ℝ) :
    ∀ (pts : List TidePoint) (st : ScanState) (t : Nat),
      List.Chain' (fun a b => a.ts ≤ b.ts) pts →
      TickInv st (some t) →
      (∀ x, pts.head? = some x → t ≤ x.ts ∧ x.ts ≤ t + 900) →
      ∃ t', TickInv
        ((pairsOf pts).foldl
          (fun st pr => (ticksOfPair pr.1.ts pr.2.ts).foldl (stepTick threshold pr.1 pr.2) st) st)
        (some t') := by
  intro pts
  induction pts with
  | nil => exact fun st t _ h _ => ⟨t, h⟩
  | cons x tail ih =>
      intro st t hchain h hhead
      cases tail with
      | nil => exact ⟨t, h⟩
      | cons y rest =>
          have hxy : x.ts ≤ y.ts := (List.chain'_cons.1 hchain).1
          have hchain' : List.Chain' (fun a b => a.ts ≤ b.ts) (y :: rest) :=
            (List.chain'_cons.1 hchain).2
          obtain ⟨htx, hxt⟩ := hhead x rfl
          have hpairs : pairsOf (x :: y :: rest) = (x, y) :: pairsOf (y :: rest) := by
            simp [pairsOf]
          rw [hpairs, List.foldl_cons]
          have hticks : ticksOfPair x.ts y.ts = ticksArr x.ts ((y.ts - x.ts) / 900 + 1) :=
            ticksOfPair_eq_arr (by omega)
          rw [hticks]
          have hinv1 := ticksFold_inv threshold x y ((y.ts - x.ts) / 900) x.ts st t h htx hxt
          apply ih _ (x.ts + 900 * ((y.ts - x.ts) / 900)) hchain' hinv1
          intro z hz
          rw [List.head?_cons, Option.some.injEq] at hz
          subst hz
          omega

instance : IsTotal TidePoint (fun a b => a.ts ≤ b.ts) :=
  ⟨fun a b => Nat.le_total a.ts b.ts⟩

instance : IsTrans TidePoint (fun a b => a.ts ≤ b.ts) :=
  ⟨fun _ _ _ => Nat.le_trans⟩

theorem sortTides_chain (tides : List TidePoint) :
    List.Chain' (fun a b => a.ts ≤ b.ts) (sortTides tides) :=
  (List.sorted_insertionSort (fun a b => a.ts ≤ b.ts) tides).chain'

theorem tickInv_init : TickInv ⟨none, none, [], false⟩ none :=
  ⟨rfl, winOK_nil, rfl, rfl⟩

/-- Any full scan ends in a state satisfying the invariant. -/
theorem scanState_inv (tides : List TidePoint) (threshold : ℝ) :
    ∃ lastT, TickInv (scanStateOf tides threshold) lastT := by
  have hchain := sortTides_chain tides
  unfold scanStateOf
  rcases hpts : sortTides tides with - | ⟨x, - | ⟨y, rest⟩⟩
  · exact ⟨none, tickInv_init⟩
  · exact ⟨none, tickInv_init⟩
  · rw [hpts] at hchain
    have hxy : x.ts ≤ y.ts := (List.chain'_cons.1 hchain).1
    have hchain' := (List.chain'_cons.1 hchain).2
    have hpairs : pairsOf (x :: y :: rest) = (x, y) :: pairsOf (y :: rest) := by
      simp [pairsOf]
    rw [hpairs, List.foldl_cons]
    have hticks : ticksOfPair x.ts y.ts = ticksArr x.ts ((y.ts - x.ts) / 900 + 1) :=
      ticksOfPair_eq_arr (by omega)
    rw [hticks]
    have hinv1 := ticksFold_inv_none threshold x y ((y.ts - x.ts) / 900) x.ts tickInv_init
    rcases pairsFold_inv threshold (y :: rest) _ (x.ts + 900 * ((y.ts - x.ts) / 900))
        hchain' hinv1 (by
          intro z hz
          rw [List.head?_cons, Option.some.injEq] at hz
          subst hz
          omega) with ⟨t', ht'⟩
    exact ⟨some t', ht'⟩

/-- Every window that `find_tide_windows` returns is well-formed:
`start ≤ end` and both on the same calendar date. -/
theorem find_tide_windows_winOK (tides : List TidePoint) (threshold : ℝ) :
    WinOK (find_tide_windows tides threshold) := by
  obtain ⟨lastT, hinv⟩ := scanState_inv tides threshold
  have hw : WinOK (scanStateOf tides threshold).windows := by
    cases lastT with
    | none => exact hinv.2.1
    | some t => exact hinv.2.1
  unfold find_tide_windows
  generalize hst : scanStateOf tides threshold = st
  rw [hst] at hw
  obtain ⟨cw, pd, w, fl⟩ := st
  simp only at hw
  dsimp only
  cases cw with
  | none => exact hw
  | some s =>
      cases pd with
      | none => exact hw
      | some pdv =>
          show WinOK (if s ≤ combine1730 (dateOf s) then
              addWindow w pdv ⟨s, combine1730 (dateOf s), durStr s (combine1730 (dateOf s))⟩
            else w)
          by_cases hguard : s ≤ combine1730 (dateOf s)
          · rw [if_pos hguard]
            exact winOK_addWindow hw hguard (by rw [dateOf_combine1730])
          · rw [if_neg hguard]
            exact hw

/-- C4: under the preconditions, the day-boundary flush branch of the tick
loop never executes during the scan (its ghost flag stays `false`) — an open
window is always closed earlier, because consecutive ticks are never more
than 15 minutes apart. -/
theorem claim_C4_day_flush_dead (tides : List TidePoint) (threshold : ℝ)
    (hnd : (tides.map TidePoint.ts).Nodup) :
    (scanStateOf tides threshold).dayFlushed = false := by
  obtain ⟨lastT, hinv⟩ := scanState_inv tides threshold
  cases lastT with
  | none => exact hinv.1
  | some t => exact hinv.1

theorem claim_C4_day_flush_dead_witness :
    ((secondsTides.map TidePoint.ts).Nodup) ∧
      (scanStateOf secondsTides 1).dayFlushed = false :=
  ⟨by decide, claim_C4_day_flush_dead secondsTides 1 (by decide)⟩

/-- C2 amended: every emitted Interval satisfies `start ≤ end` (the original
strict `start < end` fails: a window opened exactly at 17:30 is force-closed
at 17:30, emitting a zero-length interval). -/
theorem claim_C2_start_le_end_amended (tides : List TidePoint) (threshold : ℝ)
    (hnd : (tides.map TidePoint.ts).Nodup)
    (d : Nat) (itvs : List Itv) (hm : (d, itvs) ∈ find_tide_windows tides threshold)
    (itv : Itv) (hi : itv ∈ itvs) : itv.start ≤ itv.endTime :=
  (find_tide_windows_winOK tides threshold (d, itvs) hm itv hi).1

/-- C6: every emitted Interval starts and ends on the same calendar date;
in particular each 17:30 clamp lands on the interval's own start date. -/
theorem claim_C6_same_date (tides : List TidePoint) (threshold : ℝ)
    (hnd : (tides.map TidePoint.ts).Nodup)
    (d : Nat) (itvs : List Itv) (hm : (d, itvs) ∈ find_tide_windows tides threshold)
    (itv : Itv) (hi : itv ∈ itvs) : dateOf itv.start = dateOf itv.endTime :=
  (find_tide_windows_winOK tides threshold (d, itvs) hm itv hi).2

/-! Section: Symbolic evaluation of the tick loop on concrete runs -/

theorem setPd_self {st : ScanState} {x : Option Nat} (h : st.previous_date = x) :
    { st with previous_date := x } = st := by
  obtain ⟨cw, pd, w, fl⟩ := st
  cases h
  rfl

/-- One tick, no window open, daylight, below threshold: only
`previous_date` is updated. -/
theorem stepTick_eval_below (threshold : ℝ) (pr nx : TidePoint) {st : ScanState} {t : Nat}
    (hcw : st.current_window_start = none) (hdl : is_daylight t = true)
    (hthr : ¬ threshold ≤ interpolate_tide_height t pr nx) :
    stepTick threshold pr nx st t = { st with previous_date := some (dateOf t) } := by
  have hflush := dayFlushStep_of_none t hcw
  obtain ⟨cw, pd, w, fl⟩ := st
  cases hcw
  unfold stepTick
  rw [hflush]
  dsimp only
  rw [if_pos hdl, if_neg hthr]

/-- One tick, no window open, daylight, at or above threshold: a window
opens at this tick. -/
theorem stepTick_eval_open (threshold : ℝ) (pr nx : TidePoint) {st : ScanState} {t : Nat}
    (hcw : st.current_window_start = none) (hdl : is_daylight t = true)
    (hthr : threshold ≤ interpolate_tide_height t pr nx) :
    stepTick threshold pr nx st t =
      { st with previous_date := some (dateOf t), current_window_start := some t } := by
  have hflush := dayFlushStep_of_none t hcw
  obtain ⟨cw, pd, w, fl⟩ := st
  cases hcw
  unfold stepTick
  rw [hflush]
  dsimp only
  rw [if_pos hdl, if_pos hthr]

/-- One tick, window open, same date as `previous_date`, daylight, at or
above threshold: the state is unchanged apart from re-setting
`previous_date`. -/
theorem stepTick_eval_stay (threshold : ℝ) (pr nx : TidePoint) {st : ScanState} {t s : Nat}
    (hcw : st.current_window_start = some s) (hpd : st.previous_date = some (dateOf t))
    (hdl : is_daylight t = true)
    (hthr : threshold ≤ interpolate_tide_height t pr nx) :
    stepTick threshold pr nx st t = st := by
  have hflush := dayFlushStep_of_same_date hpd
  obtain ⟨cw, pd, w, fl⟩ := st
  cases hcw
  cases hpd
  unfold stepTick
  rw [hflush]
  dsimp only
  rw [if_pos hdl, if_pos hthr]

/-- A nonempty run of daylight, same-date, below-threshold ticks with no open
window leaves everything unchanged except `previous_date`. -/
theorem foldl_below_run (threshold : ℝ) (pr nx : TidePoint) :
    ∀ (l : List Nat) (st : ScanState) (d : Nat), l ≠ [] →
      st.current_window_start = none →
      (∀ t ∈ l, is_daylight t = true ∧ dateOf t = d ∧
        ¬ threshold ≤ interpolate_tide_height t pr nx) →
      l.foldl (stepTick threshold pr nx) st = { st with previous_date := some d } := by
  intro l
  induction l with
  | nil => exact fun st d hne _ _ => absurd rfl hne
  | cons a l' ih =>
      intro st d _ hcw hall
      obtain ⟨hdl, hdate, hthr⟩ := hall a (List.mem_cons_self a l')
      rw [List.foldl_cons, stepTick_eval_below threshold pr nx hcw hdl hthr, hdate]
      cases l' with
      | nil => rfl
      | cons b l'' =>
          have := ih { st with previous_date := some d } d (by simp) hcw
            (fun t ht => hall t (List.mem_cons_of_mem a ht))
          exact this

/-- A run of daylight, same-date, at-or-above-threshold ticks with an open
window and matching `previous_date` leaves the state unchanged. -/
theorem foldl_above_run (threshold : ℝ) (pr nx : TidePoint) :
    ∀ (l : List Nat) (st : ScanState) (s d : Nat),
      st.current_window_start = some s → st.previous_date = some d →
      (∀ t ∈ l, is_daylight t = true ∧ dateOf t = d ∧
        threshold ≤ interpolate_tide_height t pr nx) →
      l.foldl (stepTick threshold pr nx) st = st := by
  intro l
  induction l with
  | nil => exact fun st s d _ _ _ => rfl
  | cons a l' ih =>
      intro st s d hcw hpd hall
      obtain ⟨hdl, hdate, hthr⟩ := hall a (List.mem_cons_self a l')
      rw [List.foldl_cons,
        stepTick_eval_stay threshold pr nx hcw (by rw [hpd, hdate]) hdl hthr]
      exact ih st s d hcw hpd (fun t ht => hall t (List.mem_cons_of_mem a ht))

/-! Section: Scenario A: low 06:00 height 0.5, high 12:00 height 2.0, threshold 1.6 -/

/-- The low-tide point of Scenario A: 06:00, height 0.5. -/
noncomputable def scenLow : TidePoint := ⟨21600, 1/2, TideKind.low⟩

/-- The high-tide point of Scenario A: 12:00, height 2.0. -/
def scenHigh : TidePoint := ⟨43200, 2, TideKind.high⟩

/-- The two-point input of Scenario A. -/
noncomputable def scenATides : List TidePoint := [scenLow, scenHigh]

/-- Height of the Scenario A curve at tick `k` (15-minute ticks from 06:00):
the rising half-cosine from 0.5 to 2.0. -/
theorem scenA_interp (k : Nat) :
    interpolate_tide_height (21600 + 900 * k) scenLow scenHigh
      = 1/2 + 3/4 * (1 - Real.cos ((k : ℝ) * Real.pi / 24)) := by
  rw [interpolate_opposite_eq scenLow scenHigh _ (by decide)]
  show (1:ℝ)/2 + ((2:ℝ) - 1/2) *
      (1 - Real.cos (Real.pi *
        ((((21600 + 900 * k : Nat) : ℝ) - ((21600 : Nat) : ℝ)) /
          (((43200 : Nat) : ℝ) - ((21600 : Nat) : ℝ))))) / 2 = _
  push_cast
  have harg : Real.pi * ((21600 + 900 * (k:ℝ) - 21600) / (43200 - 21600))
      = (k : ℝ) * Real.pi / 24 := by ring
  rw [harg]
  ring

theorem cos_fifteen_pi_div_24 :
    Real.cos (15 * Real.pi / 24) = - Real.sin (Real.pi / 8) := by
  have h : (15 : ℝ) * Real.pi / 24 = Real.pi / 2 + Real.pi / 8 := by ring
  rw [h, Real.cos_add, Real.cos_pi_div_two, Real.sin_pi_div_two]
  ring

theorem cos_sixteen_pi_div_24 :
    Real.cos (16 * Real.pi / 24) = - (1 / 2) := by
  have h : (16 : ℝ) * Real.pi / 24 = Real.pi - Real.pi / 3 := by ring
  rw [h, Real.cos_pi_sub, Real.cos_pi_div_three]

theorem sin_pi_div_eight_lt : Real.sin (Real.pi / 8) < 7 / 15 := by
  have h1 : Real.sin (Real.pi / 8) < Real.pi / 8 :=
    Real.sin_lt (by positivity)
  have h2 : Real.pi < 3.15 := Real.pi_lt_d2
  have h3 : (3.15 : ℝ) / 8 < 7 / 15 := by norm_num
  linarith

/-- The Scenario A threshold characterization: the tick heights cross 1.6
exactly from tick 16 (10:00) onwards. -/
theorem scenA_above_iff (k : Nat) (hk : k ≤ 24) :
    ((8 : ℝ)/5 ≤ interpolate_tide_height (21600 + 900 * k) scenLow scenHigh) ↔ 16 ≤ k := by
  rw [scenA_interp]
  have hpi := Real.pi_pos
  have hiff : ((8:ℝ)/5 ≤ 1/2 + 3/4 * (1 - Real.cos ((k:ℝ) * Real.pi / 24))) ↔
      Real.cos ((k : ℝ) * Real.pi / 24) ≤ -(7/15) := by
    constructor <;> intro h <;> linarith
  rw [hiff]
  constructor
  · intro h
    by_contra hlt
    push_neg at hlt
    have hk15 : (k : ℝ) ≤ 15 := by exact_mod_cast Nat.lt_succ_iff.1 hlt
    have h0 : (0:ℝ) ≤ (k:ℝ) * Real.pi / 24 := by positivity
    have hle : (k:ℝ) * Real.pi / 24 ≤ 15 * Real.pi / 24 := by
      apply div_le_div_of_nonneg_right ?_ (by norm_num)
      · exact mul_le_mul_of_nonneg_right hk15 (le_of_lt hpi)
    have hup : (15:ℝ) * Real.pi / 24 ≤ Real.pi := by nlinarith
    have hmono := Real.cos_le_cos_of_nonneg_of_le_pi h0 hup hle
    rw [cos_fifteen_pi_div_24] at hmono
    have := sin_pi_div_eight_lt
    linarith
  · intro h16
    have hk16 : (16 : ℝ) ≤ (k : ℝ) := by exact_mod_cast h16
    have hk24 : (k : ℝ) ≤ 24 := by exact_mod_cast hk
    have h0 : (0:ℝ) ≤ 16 * Real.pi / 24 := by positivity
    have hle : (16:ℝ) * Real.pi / 24 ≤ (k:ℝ) * Real.pi / 24 := by
      apply div_le_div_of_nonneg_right ?_ (by norm_num)
      · exact mul_le_mul_of_nonneg_right hk16 (le_of_lt hpi)
    have hup : (k:ℝ) * Real.pi / 24 ≤ Real.pi := by nlinarith
    have hmono := Real.cos_le_cos_of_nonneg_of_le_pi h0 hup hle
    rw [cos_sixteen_pi_div_24] at hmono
    linarith

/-- Scanner state after the Scenario A double loop: a window opened at 10:00
(second 36000) is still open when the data runs out at 12:00. -/
theorem scenA_state :
    scanStateOf scenATides (8/5) = ⟨some 36000, some 0, [], false⟩ := by
  have hsort : sortTides scenATides = scenATides := by
    simp [sortTides, scenATides, List.insertionSort, List.orderedInsert, scenLow, scenHigh]
  have hpairs : pairsOf scenATides = [(scenLow, scenHigh)] := rfl
  have hticks : ticksOfPair scenLow.ts scenHigh.ts = ticksArr 21600 25 := by
    rw [show scenLow.ts = 21600 from rfl, show scenHigh.ts = 43200 from rfl,
      ticksOfPair_eq_arr (by omega)]
  have hsplit : ticksArr 21600 25 = ticksArr 21600 16 ++ (36000 :: ticksArr 36900 8) := by
    rw [show (25:ℕ) = 16 + 9 from rfl, ticksArr_append]
    norm_num [ticksArr_succ_cons]
  unfold scanStateOf
  rw [hsort, hpairs, List.foldl_cons, List.foldl_nil, hticks, hsplit, List.foldl_append]
  have hbelow : (ticksArr 21600 16).foldl (stepTick (8/5) scenLow scenHigh)
      ⟨none, none, [], false⟩ = ⟨none, some 0, [], false⟩ := by
    apply foldl_below_run
    · rw [ticksArr_succ_cons]
      exact List.cons_ne_nil _ _
    · rfl
    · intro t ht
      obtain ⟨k, hk, rfl⟩ := mem_ticksArr.1 ht
      refine ⟨?_, ?_, ?_⟩
      · rw [is_daylight_iff]
        simp only [secOfDay]
        omega
      · simp only [dateOf]
        omega
      · rw [scenA_above_iff k (by omega)]
        omega
  rw [hbelow, List.foldl_cons]
  have hopen : stepTick (8/5) scenLow scenHigh ⟨none, some 0, [], false⟩ 36000 =
      ⟨some 36000, some 0, [], false⟩ := by
    rw [stepTick_eval_open (8/5) scenLow scenHigh rfl (by decide)
      (by
        rw [show (36000:ℕ) = 21600 + 900 * 16 from rfl, scenA_above_iff 16 (by omega)])]
    rfl
  rw [hopen]
  apply foldl_above_run (8/5) scenLow scenHigh _ _ 36000 0 rfl rfl
  intro t ht
  obtain ⟨k, hk, rfl⟩ := mem_ticksArr.1 ht
  have hts : 36900 + 900 * k = 21600 + 900 * (17 + k) := by ring
  rw [hts]
  refine ⟨?_, ?_, ?_⟩
  · rw [is_daylight_iff]
    simp only [secOfDay]
    omega
  · simp only [dateOf]
    omega
  · rw [scenA_above_iff (17 + k) (by omega)]
    omega

/-- The full result of `find_tide_windows` on Scenario A: one window from
10:00 to the end-of-data clamp 17:30, duration 07:30. -/
theorem scenA_eval :
    find_tide_windows scenATides (8/5) = [(0, [⟨36000, 63000, (7, 30)⟩])] := by
  unfold find_tide_windows
  rw [scenA_state]
  dsimp only
  norm_num [addWindow, durStr, dateOf, combine1730]

/-- C1 counterexample: on Scenario A with threshold 1.6, the scan emits
exactly one Interval for day 0, whose start 10:00 (36000) is strictly after
09:00 as claimed — but whose end is 17:30 (63000), not 12:00 (43200): the
end-of-data flush closes the still-open window at the 17:30 daylight bound of
its start date, not at the final tide timestamp. -/
theorem claim_C1_scenarioA_counterexample :
    find_tide_windows scenATides 1.6 = [(0, [⟨36000, 63000, (7, 30)⟩])] ∧
      (63000 : ℕ) ≠ 43200 := by
  constructor
  · have h : (1.6 : ℝ) = 8/5 := by norm_num
    rw [h, scenA_eval]
  · omega

/-- C1 amended: on Scenario A with threshold 1.6 the scan emits exactly one
Interval for that date, whose start 10:00 is strictly after 09:00, and whose
end is the 17:30 end-of-data clamp (not the last tide time 12:00), with
duration 07:30. -/
theorem claim_C1_scenarioA_amended :
    find_tide_windows scenATides 1.6 = [(0, [⟨36000, 63000, (7, 30)⟩])] ∧
      32400 < 36000 := by
  constructor
  · have h : (1.6 : ℝ) = 8/5 := by norm_num
    rw [h, scenA_eval]
  · omega

/-! Section: A zero-length emitted interval (counterexample to strict start < end) -/

/-- Low tide at 17:00 height 0. -/
def zeroLow : TidePoint := ⟨61200, 0, TideKind.low⟩

/-- High tide at 17:30 height 2. -/
def zeroHigh : TidePoint := ⟨63000, 2, TideKind.high⟩

/-- Input whose only above-threshold tick (threshold 2) is exactly 17:30. -/
def zeroTides : List TidePoint := [zeroLow, zeroHigh]

theorem zeroTides_interp_61200 : interpolate_tide_height 61200 zeroLow zeroHigh = 0 :=
  interpolate_left_endpoint zeroLow zeroHigh

theorem zeroTides_interp_63000 : interpolate_tide_height 63000 zeroLow zeroHigh = 2 :=
  interpolate_right_endpoint zeroLow zeroHigh (by decide)

theorem zeroTides_interp_62100 : interpolate_tide_height 62100 zeroLow zeroHigh = 1 := by
  rw [interpolate_opposite_eq zeroLow zeroHigh 62100 (by decide)]
  show (0:ℝ) + ((2:ℝ) - 0) *
      (1 - Real.cos (Real.pi *
        ((((62100 : Nat) : ℝ) - ((61200 : Nat) : ℝ)) /
          (((63000 : Nat) : ℝ) - ((61200 : Nat) : ℝ))))) / 2 = 1
  push_cast
  rw [show Real.pi * (((62100:ℝ) - 61200) / ((63000:ℝ) - 61200)) = Real.pi / 2 from by ring,
    Real.cos_pi_div_two]
  norm_num

/-- Scanning `zeroTides` with threshold 2 opens a window exactly at 17:30 on
the last tick. -/
theorem zeroTides_state : scanStateOf zeroTides 2 = ⟨some 63000, some 0, [], false⟩ := by
  have hsort : sortTides zeroTides = zeroTides := by
    simp [sortTides, zeroTides, zeroLow, zeroHigh, List.insertionSort, List.orderedInsert]
  have s1 : stepTick 2 zeroLow zeroHigh ⟨none, none, [], false⟩ 61200 =
      ⟨none, some 0, [], false⟩ := by
    rw [stepTick_eval_below 2 zeroLow zeroHigh rfl (by decide)
      (by rw [zeroTides_interp_61200]; norm_num)]
    rfl
  have s2 : stepTick 2 zeroLow zeroHigh ⟨none, some 0, [], false⟩ 62100 =
      ⟨none, some 0, [], false⟩ := by
    rw [stepTick_eval_below 2 zeroLow zeroHigh rfl (by decide)
      (by rw [zeroTides_interp_62100]; norm_num)]
    rfl
  have s3 : stepTick 2 zeroLow zeroHigh ⟨none, some 0, [], false⟩ 63000 =
      ⟨some 63000, some 0, [], false⟩ := by
    rw [stepTick_eval_open 2 zeroLow zeroHigh rfl (by decide)
      (by rw [zeroTides_interp_63000])]
    rfl
  unfold scanStateOf
  rw [hsort, show pairsOf zeroTides = [(zeroLow, zeroHigh)] from rfl,
    List.foldl_cons, List.foldl_nil,
    show ticksOfPair zeroLow.ts zeroHigh.ts = [61200, 62100, 63000] from by decide,
    List.foldl_cons, List.foldl_cons, List.foldl_cons, List.foldl_nil, s1, s2, s3]

/-- C2 counterexample: scanning `zeroTides` with threshold 2 emits the
zero-length Interval `(17:30, 17:30)` — a window opened exactly at the 17:30
daylight bound and force-closed there by the end-of-data flush — so
`start < end` does not hold for every emitted Interval, even though this
input has sorted, duplicate-free timestamps. -/
theorem claim_C2_counterexample :
    find_tide_windows zeroTides 2 = [(0, [⟨63000, 63000, (0, 0)⟩])] ∧
      ((zeroTides.map TidePoint.ts).Nodup ∧ ¬ ((63000 : Nat) < 63000)) := by
  refine ⟨?_, by decide, by omega⟩
  unfold find_tide_windows
  rw [zeroTides_state]
  dsimp only
  norm_num [addWindow, durStr, dateOf, combine1730]

/-! Section: Equivalence of the two duplicated scanners (C8) -/

/-- Forgetting the duration string of a `main.py` window tuple gives the
corresponding `streamlit_app.py` window tuple. -/
def stripItv (i : Itv) : Nat × Nat := (i.start, i.endTime)

/-- Forgetting the duration strings of a whole `main.py` result mapping. -/
def stripW (w : List (Nat × List Itv)) : List (Nat × List (Nat × Nat)) :=
  w.map (fun e => (e.1, e.2.map stripItv))

/-- Forgetting the duration strings in a `main.py` scanner state. -/
def stripState (st : ScanState) : ScanStateApp :=
  ⟨st.current_window_start, st.previous_date, stripW st.windows, st.dayFlushed⟩

theorem any_stripW (w : List (Nat × List Itv)) (k : Nat) :
    (stripW w).any (fun e => e.1 == k) = w.any (fun e => e.1 == k) := by
  induction w with
  | nil => rfl
  | cons a tl ih =>
      simp only [stripW, List.map_cons, List.any_cons] at ih ⊢
      rw [ih]

theorem addWindow_strip (w : List (Nat × List Itv)) (k : Nat) (itv : Itv) :
    addWindow (stripW w) k (stripItv itv) = stripW (addWindow w k itv) := by
  unfold addWindow
  rw [any_stripW]
  by_cases h : w.any (fun e => e.1 == k)
  · rw [if_pos h, if_pos h]
    unfold stripW
    rw [List.map_map, List.map_map]
    apply List.map_congr_left
    intro e _
    simp only [Function.comp_apply]
    by_cases hek : e.1 == k
    · rw [if_pos hek]
      simp only [hek, if_pos]
      simp [List.map_append, stripItv]
    · rw [if_neg hek]
      simp only [hek]
      rw [if_neg (by simp_all)]
  · rw [if_neg h, if_neg h]
    unfold stripW
    simp [stripItv]

theorem dayFlushStep_strip (st : ScanState) (t : Nat) :
    dayFlushStepApp (stripState st) t = stripState (dayFlushStep st t) := by
  obtain ⟨cw, pd, w, fl⟩ := st
  cases pd with
  | none => cases cw <;> rfl
  | some pd =>
      cases cw with
      | none => rfl
      | some s =>
          unfold dayFlushStepApp dayFlushStep stripState
          dsimp only
          by_cases hpd : pd ≠ dateOf t
          · rw [if_pos hpd, if_pos hpd]
            simp only [ScanStateApp.mk.injEq]
            exact ⟨trivial, trivial, addWindow_strip w pd
              ⟨s, combine1730 (dateOf s), durStr s (combine1730 (dateOf s))⟩, trivial⟩
          · rw [if_neg hpd, if_neg hpd]

theorem stepTick_strip (threshold : ℝ) (pr nx : TidePoint) (st : ScanState) (t : Nat) :
    stepTickApp threshold pr nx (stripState st) t =
      stripState (stepTick threshold pr nx st t) := by
  unfold stepTickApp stepTick
  simp only [is_daylight_app_eq, interpolate_tide_height_app_eq, dayFlushStep_strip]
  generalize dayFlushStep st t = st1
  obtain ⟨cw, pd, w, fl⟩ := st1
  by_cases hdl : is_daylight t
  · rw [if_pos hdl, if_pos hdl]
    by_cases hthr : threshold ≤ interpolate_tide_height t pr nx
    · rw [if_pos hthr, if_pos hthr]
      cases cw <;> rfl
    · rw [if_neg hthr, if_neg hthr]
      cases cw with
      | none => rfl
      | some s =>
          show ScanStateApp.mk none (some (dateOf t))
              (addWindow (stripW w) (dateOf t) (s, t)) fl = _
          unfold stripState
          simp only [ScanStateApp.mk.injEq]
          exact ⟨trivial, trivial, addWindow_strip w (dateOf t) ⟨s, t, durStr s t⟩, trivial⟩
  · rw [if_neg hdl, if_neg hdl]
    cases cw with
    | none => rfl
    | some s =>
        show ScanStateApp.mk none (some (dateOf t))
            (if s ≤ combine1730 (dateOf t) then
              addWindow (stripW w) (dateOf t) (s, combine1730 (dateOf t))
            else stripW w) fl = _
        unfold stripState
        simp only [ScanStateApp.mk.injEq]
        refine ⟨trivial, trivial, ?_, trivial⟩
        by_cases hguard : s ≤ combine1730 (dateOf t)
        · rw [if_pos hguard]
          show _ = stripW (if s ≤ combine1730 (dateOf t) then _ else w)
          rw [if_pos hguard]
          exact addWindow_strip w (dateOf t)
            ⟨s, combine1730 (dateOf t), durStr s (combine1730 (dateOf t))⟩
        · rw [if_neg hguard]
          show _ = stripW (if s ≤ combine1730 (dateOf t) then _ else w)
          rw [if_neg hguard]

theorem foldl_ticks_strip (threshold : ℝ) (pr nx : TidePoint) (l : List Nat) :
    ∀ st : ScanState,
      l.foldl (stepTickApp threshold pr nx) (stripState st) =
        stripState (l.foldl (stepTick threshold pr nx) st) := by
  induction l with
  | nil => exact fun st => rfl
  | cons a tl ih =>
      intro st
      rw [List.foldl_cons, List.foldl_cons, stepTick_strip]
      exact ih _

theorem foldl_pairs_strip (threshold : ℝ) (ps : List (TidePoint × TidePoint)) :
    ∀ st : ScanState,
      ps.foldl (fun st pr =>
          (ticksOfPair pr.1.ts pr.2.ts).foldl (stepTickApp threshold pr.1 pr.2) st)
        (stripState st) =
      stripState (ps.foldl (fun st pr =>
          (ticksOfPair pr.1.ts pr.2.ts).foldl (stepTick threshold pr.1 pr.2) st) st) := by
  induction ps with
  | nil => exact fun st => rfl
  | cons p tl ih =>
      intro st
      rw [List.foldl_cons, List.foldl_cons, foldl_ticks_strip]
      exact ih _

theorem scanStateOfApp_eq (tides : List TidePoint) (threshold : ℝ) :
    scanStateOfApp tides threshold = stripState (scanStateOf tides threshold) := by
  unfold scanStateOfApp scanStateOf
  exact foldl_pairs_strip threshold (pairsOf (sortTides tides)) ⟨none, none, [], false⟩

/-- C8: for every input collection and threshold the two duplicated scanners
agree: the `streamlit_app.py` `daily_windows` mapping is exactly the
`main.py` `find_tide_windows` mapping with the duration string stripped from
every tuple — same date keys, same `(start, end)` pairs, same order. -/
theorem claim_C8_scanners_equivalent (tides : List TidePoint) (threshold : ℝ) :
    daily_windows tides threshold = stripW (find_tide_windows tides threshold) := by
  unfold daily_windows find_tide_windows
  rw [scanStateOfApp_eq]
  generalize scanStateOf tides threshold = st
  obtain ⟨cw, pd, w, fl⟩ := st
  cases cw with
  | none => cases pd <;> rfl
  | some s =>
      cases pd with
      | none => rfl
      | some pdv =>
          show (if s ≤ combine1730 (dateOf s) then
              addWindow (stripW w) pdv (s, combine1730 (dateOf s))
            else stripW w) = _
          by_cases hguard : s ≤ combine1730 (dateOf s)
          · rw [if_pos hguard]
            show _ = stripW (if s ≤ combine1730 (dateOf s) then _ else w)
            rw [if_pos hguard]
            exact addWindow_strip w pdv
              ⟨s, combine1730 (dateOf s), durStr s (combine1730 (dateOf s))⟩
          · rw [if_neg hguard]
            show _ = stripW (if s ≤ combine1730 (dateOf s) then _ else w)
            rw [if_neg hguard]

theorem claim_C2_start_le_end_amended_witness :
    ((scenATides.map TidePoint.ts).Nodup ∧
        (0, [(⟨36000, 63000, (7, 30)⟩ : Itv)]) ∈ find_tide_windows scenATides (8/5) ∧
        (⟨36000, 63000, (7, 30)⟩ : Itv) ∈ [(⟨36000, 63000, (7, 30)⟩ : Itv)]) ∧
      (⟨36000, 63000, (7, 30)⟩ : Itv).start ≤ (⟨36000, 63000, (7, 30)⟩ : Itv).endTime :=
  ⟨⟨by decide, by rw [scenA_eval]; exact List.mem_singleton_self _, by decide⟩,
    claim_C2_start_le_end_amended scenATides (8/5) (by decide) 0 _
      (by rw [scenA_eval]; exact List.mem_singleton_self _) _ (by decide)⟩

theorem claim_C6_same_date_witness :
    ((scenATides.map TidePoint.ts).Nodup ∧
        (0, [(⟨36000, 63000, (7, 30)⟩ : Itv)]) ∈ find_tide_windows scenATides (8/5) ∧
        (⟨36000, 63000, (7, 30)⟩ : Itv) ∈ [(⟨36000, 63000, (7, 30)⟩ : Itv)]) ∧
      dateOf (⟨36000, 63000, (7, 30)⟩ : Itv).start =
        dateOf (⟨36000, 63000, (7, 30)⟩ : Itv).endTime :=
  ⟨⟨by decide, by rw [scenA_eval]; exact List.mem_singleton_self _, by decide⟩,
    claim_C6_same_date scenATides (8/5) (by decide) 0 _
      (by rw [scenA_eval]; exact List.mem_singleton_self _) _ (by decide)⟩

/-! Section: The best-day reducer (C10) -/

/-- Invariant of the best-day fold after having consumed `pref`: either no
day has beaten the initial 0 yet, or the accumulator records the first
occurrence of the running maximum. -/
def BDInv (pref : List (Nat × List (Nat × Nat))) (acc : Option Nat × ℚ) : Prop :=
  (acc.1 = none → acc.2 = 0 ∧ ∀ j (hj : j < pref.length), day_minutes pref[j].2 ≤ 0) ∧
  (∀ d, acc.1 = some d → 0 < acc.2 ∧ ∃ i, ∃ hi : i < pref.length,
    pref[i].1 = d ∧ day_minutes pref[i].2 = acc.2 * 60 ∧
    (∀ j (hj : j < pref.length), j < i → day_minutes pref[j].2 < day_minutes pref[i].2) ∧
    (∀ j (hj : j < pref.length), day_minutes pref[j].2 ≤ day_minutes pref[i].2))

theorem bdInv_step {pref : List (Nat × List (Nat × Nat))} {acc : Option Nat × ℚ}
    (h : BDInv pref acc) (e : Nat × List (Nat × Nat)) :
    BDInv (pref ++ [e])
      (if day_minutes e.2 > acc.2 * 60 then (some e.1, day_minutes e.2 / 60) else acc) := by
  obtain ⟨hnone, hsome⟩ := h
  have hlen : (pref ++ [e]).length = pref.length + 1 := by simp
  have hgetl : ∀ (j : Nat) (hj2 : j < (pref ++ [e]).length) (hj : j < pref.length),
      (pref ++ [e])[j] = pref[j] :=
    fun j hj2 hj => List.getElem_append_left hj
  have hgete : ∀ (hl : pref.length < (pref ++ [e]).length), (pref ++ [e])[pref.length] = e := by
    intro hl
    rw [List.getElem_append_right (le_refl _)]
    simp
  have hmax : ∀ j (hj : j < pref.length), day_minutes pref[j].2 ≤ acc.2 * 60 := by
    intro j hj
    cases hacc : acc.1 with
    | none =>
        obtain ⟨h0, hall⟩ := hnone hacc
        have := hall j hj
        rw [h0]
        linarith
    | some d =>
        obtain ⟨hpos, i, hi, -, heq, -, hle⟩ := hsome d hacc
        have := hle j hj
        linarith
  by_cases hbeat : day_minutes e.2 > acc.2 * 60
  · rw [if_pos hbeat]
    constructor
    · intro hcon
      cases hcon
    · intro d hd
      rw [Option.some.injEq] at hd
      have hpos : (0:ℚ) < acc.2 * 60 + (day_minutes e.2 - acc.2 * 60) := by
        have : (0:ℚ) ≤ acc.2 * 60 := by
          cases hacc : acc.1 with
          | none => rw [(hnone hacc).1]; norm_num
          | some d' =>
              have := (hsome d' hacc).1
              linarith
        linarith
      refine ⟨by simpa using div_pos (by linarith) (by norm_num : (0:ℚ) < 60), ?_⟩
      refine ⟨pref.length, by omega, ?_, ?_, ?_, ?_⟩
      · rw [hgete (by simp), hd]
      · rw [hgete (by simp)]
        field_simp
      · intro j hj hji
        have hj' : j < pref.length := by omega
        rw [hgete (by simp), hgetl j (by simp; omega) hj']
        have := hmax j hj'
        linarith
      · intro j hj
        rw [hgete (by simp)]
        by_cases hj' : j < pref.length
        · rw [hgetl j (by simp; omega) hj']
          have := hmax j hj'
          linarith
        · have : j = pref.length := by omega
          subst this
          rw [hgete (by simp)]
  · rw [if_neg hbeat]
    push_neg at hbeat
    constructor
    · intro hacc
      obtain ⟨h0, hall⟩ := hnone hacc
      refine ⟨h0, ?_⟩
      intro j hj
      by_cases hj' : j < pref.length
      · rw [hgetl j (by simp; omega) hj']
        exact hall j hj'
      · have : j = pref.length := by omega
        subst this
        rw [hgete (by simp)]
        rw [h0] at hbeat
        linarith
    · intro d hacc
      obtain ⟨hpos, i, hi, hkey, heq, hstrict, hle⟩ := hsome d hacc
      refine ⟨hpos, i, by omega, ?_, ?_, ?_, ?_⟩
      · rw [hgetl i (by simp; omega) hi]
        exact hkey
      · rw [hgetl i (by simp; omega) hi]
        exact heq
      · intro j hj hji
        have hj' : j < pref.length := by omega
        rw [hgetl i (by simp; omega) hi, hgetl j (by simp; omega) hj']
        exact hstrict j hj' hji
      · intro j hj
        rw [hgetl i (by simp; omega) hi]
        by_cases hj' : j < pref.length
        · rw [hgetl j (by simp; omega) hj']
          exact hle j hj'
        · have : j = pref.length := by omega
          subst this
          rw [hgete (by simp)]
          rw [heq]
          exact hbeat

theorem bdInv_fold :
    ∀ (rest pref : List (Nat × List (Nat × Nat))) (acc : Option Nat × ℚ),
      BDInv pref acc →
      BDInv (pref ++ rest)
        (rest.foldl
          (fun acc e =>
            if day_minutes e.2 > acc.2 * 60 then (some e.1, day_minutes e.2 / 60) else acc)
          acc) := by
  intro rest
  induction rest with
  | nil =>
      intro pref acc h
      simpa using h
  | cons e rest ih =>
      intro pref acc h
      rw [List.foldl_cons]
      have := ih (pref ++ [e]) _ (bdInv_step h e)
      rwa [List.append_assoc, List.singleton_append] at this

/-- C10: whenever some day has a strictly positive total, the best-day
reducer returns the first day in the mapping's iteration order attaining the
maximum total — its total strictly exceeds that of every earlier day (the
strict `>` breaks ties in favor of the earlier day) and is at least that of
every day in the mapping. -/
theorem claim_C10_best_day (dw : List (Nat × List (Nat × Nat)))
    (h : ∃ e ∈ dw, 0 < day_minutes e.2) :
    ∃ i, ∃ hi : i < dw.length, (best_day dw).1 = some dw[i].1 ∧
      (∀ j (hj : j < dw.length), j < i → day_minutes dw[j].2 < day_minutes dw[i].2) ∧
      (∀ j (hj : j < dw.length), day_minutes dw[j].2 ≤ day_minutes dw[i].2) := by
  have hinit : BDInv [] ((none : Option Nat), (0:ℚ)) := by
    constructor
    · intro
      exact ⟨rfl, fun j hj => by simp at hj⟩
    · intro d hd
      cases hd
  have hinv := bdInv_fold dw [] (none, 0) hinit
  rw [List.nil_append] at hinv
  obtain ⟨hnone, hsome⟩ := hinv
  rcases hacc : (best_day dw).1 with - | d
  · exfalso
    obtain ⟨e, he, hpos⟩ := h
    obtain ⟨i, hi, rfl⟩ := List.getElem_of_mem he
    have := (hnone hacc).2 i hi
    linarith
  · obtain ⟨-, i, hi, hkey, -, hstrict, hle⟩ := hsome d hacc
    exact ⟨i, hi, by rw [hkey], hstrict, hle⟩

theorem claim_C10_best_day_witness :
    (∃ e ∈ [((0:Nat), [((0:Nat), (3600:Nat))]), ((1:Nat), [((0:Nat), (3600:Nat))])],
        0 < day_minutes e.2) ∧
      (∃ i, ∃ hi : i < ([((0:Nat), [((0:Nat), (3600:Nat))]),
          ((1:Nat), [((0:Nat), (3600:Nat))])]).length,
        (best_day [((0:Nat), [((0:Nat), (3600:Nat))]),
          ((1:Nat), [((0:Nat), (3600:Nat))])]).1 =
            some ([((0:Nat), [((0:Nat), (3600:Nat))]),
              ((1:Nat), [((0:Nat), (3600:Nat))])][i].1) ∧
        (∀ j (hj : j < ([((0:Nat), [((0:Nat), (3600:Nat))]),
            ((1:Nat), [((0:Nat), (3600:Nat))])]).length), j < i →
          day_minutes ([((0:Nat), [((0:Nat), (3600:Nat))]),
            ((1:Nat), [((0:Nat), (3600:Nat))])][j].2) <
          day_minutes ([((0:Nat), [((0:Nat), (3600:Nat))]),
            ((1:Nat), [((0:Nat), (3600:Nat))])][i].2)) ∧
        (∀ j (hj : j < ([((0:Nat), [((0:Nat), (3600:Nat))]),
            ((1:Nat), [((0:Nat), (3600:Nat))])]).length),
          day_minutes ([((0:Nat), [((0:Nat), (3600:Nat))]),
            ((1:Nat), [((0:Nat), (3600:Nat))])][j].2) ≤
          day_minutes ([((0:Nat), [((0:Nat), (3600:Nat))]),
            ((1:Nat), [((0:Nat), (3600:Nat))])][i].2))) :=
  ⟨⟨((0:Nat), [((0:Nat), (3600:Nat))]), by decide, by norm_num [day_minutes]⟩,
    claim_C10_best_day _
      ⟨((0:Nat), [((0:Nat), (3600:Nat))]), by decide, by norm_num [day_minutes]⟩⟩

end BoatUsage
